import Mathlib

/-!
Verification development for the `memoryCache` Go package (`cache.go`).

The package implements a generic in-memory cache with a single cache-wide
TTL.  The underlying concurrent store (`haxmap.Map`) is an external
collaborator; per the package's contract it is a key-unique map offering
`Set` (upsert), `Get` (lookup), `Del` (remove, no-op when absent) and
`ForEach` (traversal with a visitor callback).  We embed the store as an
association list together with those four operations; key uniqueness of
the real map appears as a `Nodup` hypothesis where a theorem needs it.

Wall-clock instants (`time.Time`) and durations (`time.Duration`) are
embedded as `Int` (nanosecond arithmetic; `time.Time.Sub` is integer
subtraction here).  Operations of the cache that read the clock
(`Set`, `cleanup`) take the captured instant `now` as an explicit
argument, exactly at the points where the Go source calls `time.Now()`.

The sweeper goroutine (`startCleanupRoutine`) loops on a `select`:
a ticker fire runs `cleanup`, while a receive on the closed `stopCleanup`
channel makes the goroutine return, after which no further cleanup pass
ever runs.  Sequentially we model one loop iteration as `tick`: a cleanup
pass while the stop channel is still open, the identity afterwards.
`close` on a Go channel panics when the channel is already closed;
`StopCleanup` therefore returns `Except GoPanic`.
-/

namespace MemoryCache

/-- `CachedItem[V]` from `cache.go`: the stored value together with the
wall-clock instant captured by `Set`. -/
structure CachedItem (V : Type) where
  Value : V
  CreatedTime : Int
deriving Repr, DecidableEq

/-- The external store, embedded as an association list from keys to
cached items. -/
abbrev Store (K V : Type) : Type := List (K × CachedItem V)

variable {K V : Type} [DecidableEq K]

/-- `haxmap.Map.Get`: first (and in the real key-unique map, only)
binding of `k`. -/
def lookup : Store K V → K → Option (CachedItem V)
  | [], _ => none
  | p :: rest, k => if p.1 = k then some p.2 else lookup rest k

/-- `haxmap.Map.Set`: replace the binding of `k` wholesale, or append a
fresh binding when `k` is absent. -/
def upsert : Store K V → K → CachedItem V → Store K V
  | [], k, item => [(k, item)]
  | p :: rest, k, item =>
      if p.1 = k then (k, item) :: rest else p :: upsert rest k item

/-- `haxmap.Map.Del`: drop every binding of `k`; a no-op when `k` is
absent. -/
def del : Store K V → K → Store K V
  | [], _ => []
  | p :: rest, k => if p.1 = k then del rest k else p :: del rest k

/-- The body of `Cache.Clear`: `ForEach` over the snapshot `s`, deleting
every visited key from the live store `acc`, the visitor always
returning `true` (continue). -/
def clearPass : Store K V → Store K V → Store K V
  | [], acc => acc
  | p :: rest, acc => clearPass rest (del acc p.1)

/-- The body of `Cache.cleanup`: `ForEach` over the snapshot `s`,
deleting from the live store `acc` every visited entry whose age
`now - CreatedTime` strictly exceeds `ttl`, continuing through the whole
traversal. -/
def sweepPass (ttl now : Int) : Store K V → Store K V → Store K V
  | [], acc => acc
  | p :: rest, acc =>
      sweepPass ttl now rest
        (if now - p.2.CreatedTime > ttl then del acc p.1 else acc)

/-- `Cache[T, V]` from `cache.go`: the store handle, the cache-wide TTL,
and the stop channel, the latter embedded as the flag `stopClosed`
(`false` while the channel made by `NewCache` is still open). -/
structure Cache (K V : Type) where
  cache : Store K V
  ttl : Int
  stopClosed : Bool

/-- `NewCache(ttl)`: build the cache with an empty store, the given TTL
taken as-is, and a fresh (open) stop channel.  The spawned sweeper
goroutine is represented by `tick` steps on the resulting state. -/
def NewCache (ttl : Int) : Cache K V :=
  { cache := [], ttl := ttl, stopClosed := false }

/-- `Cache.Set`: unconditionally store a brand-new
`CachedItem{value, now}` under `key`; `now` is the `time.Now()` read in
the body. -/
def Cache.Set (c : Cache K V) (key : K) (value : V) (now : Int) : Cache K V :=
  { c with cache := upsert c.cache key ⟨value, now⟩ }

/-- `Cache.Get`: look the key up in the store; on a miss return the zero
value of `V` and `false`, on a hit return the stored value and `true`.
No clock access and no TTL comparison occur. -/
def Cache.Get [Inhabited V] (c : Cache K V) (key : K) : V × Bool :=
  match lookup c.cache key with
  | none => (default, false)
  | some item => (item.Value, true)

/-- `Cache.Delete`: forward to the store's `Del`. -/
def Cache.Delete (c : Cache K V) (key : K) : Cache K V :=
  { c with cache := del c.cache key }

/-- `Cache.Clear`: traverse the store deleting every observed key. -/
def Cache.Clear (c : Cache K V) : Cache K V :=
  { c with cache := clearPass c.cache c.cache }

/-- `Cache.cleanup`: one sweep pass at the single captured instant
`now`. -/
def Cache.cleanup (c : Cache K V) (now : Int) : Cache K V :=
  { c with cache := sweepPass c.ttl now c.cache c.cache }

/-- The Go runtime panic raised by `close` on an already-closed
channel. -/
inductive GoPanic : Type where
  | closeOfClosedChannel
deriving Repr, DecidableEq

/-- `Cache.StopCleanup`: `close(c.stopCleanup)`.  Closing the channel for
the first time marks it closed; closing it again is the runtime panic
`close of closed channel`. -/
def Cache.StopCleanup (c : Cache K V) : Except GoPanic (Cache K V) :=
  if c.stopClosed then Except.error GoPanic.closeOfClosedChannel
  else Except.ok { c with stopClosed := true }

/-- One iteration of the sweeper loop in `startCleanupRoutine`: while the
stop channel is open a ticker fire runs `cleanup` at the captured instant
`now`; once the channel is closed the goroutine has returned and the
state is untouched. -/
def Cache.tick (c : Cache K V) (now : Int) : Cache K V :=
  if c.stopClosed then c else c.cleanup now

/-- A sequence of sweeper iterations at the given instants. -/
def Cache.runTicks (c : Cache K V) (times : List Int) : Cache K V :=
  times.foldl Cache.tick c

/-! ### Store lemmas -/

theorem lookup_upsert_self (st : Store K V) (k : K) (item : CachedItem V) :
    lookup (upsert st k item) k = some item := by
  induction st with
  | nil => simp [upsert, lookup]
  | cons p rest ih =>
      by_cases h : p.1 = k
      · simp [upsert, lookup, h]
      · simp [upsert, lookup, h, ih]

theorem lookup_upsert_other (st : Store K V) (k k' : K) (item : CachedItem V)
    (hne : k' ≠ k) : lookup (upsert st k item) k' = lookup st k' := by
  induction st with
  | nil => simp [upsert, lookup, Ne.symm hne]
  | cons p rest ih =>
      by_cases h : p.1 = k
      · subst h
        simp [upsert, lookup, Ne.symm hne]
      · simp [upsert, lookup, h, ih]

theorem lookup_del_self (st : Store K V) (k : K) :
    lookup (del st k) k = none := by
  induction st with
  | nil => simp [del, lookup]
  | cons p rest ih =>
      by_cases h : p.1 = k
      · simp [del, h, ih]
      · simp [del, lookup, h, ih]

theorem lookup_del_other (st : Store K V) (k k' : K) (hne : k' ≠ k) :
    lookup (del st k) k' = lookup st k' := by
  induction st with
  | nil => simp [del]
  | cons p rest ih =>
      by_cases h : p.1 = k
      · subst h
        simp [del, lookup, Ne.symm hne, ih]
      · simp [del, lookup, h, ih]

theorem del_of_lookup_none (st : Store K V) (k : K)
    (h : lookup st k = none) : del st k = st := by
  induction st with
  | nil => simp [del]
  | cons p rest ih =>
      by_cases hp : p.1 = k
      · simp [lookup, hp] at h
      · simp only [lookup, if_neg hp] at h
        simp [del, hp, ih h]

theorem mem_of_lookup_some (st : Store K V) (k : K) (item : CachedItem V)
    (h : lookup st k = some item) : (k, item) ∈ st := by
  induction st with
  | nil => simp [lookup] at h
  | cons p rest ih =>
      by_cases hp : p.1 = k
      · simp only [lookup, if_pos hp, Option.some.injEq] at h
        obtain ⟨a, b⟩ := p
        cases hp
        cases h
        exact List.mem_cons_self _ _
      · simp only [lookup, if_neg hp] at h
        exact List.mem_cons_of_mem _ (ih h)

theorem lookup_none_of_forall (st : Store K V) (k : K)
    (h : ∀ p ∈ st, p.1 ≠ k) : lookup st k = none := by
  induction st with
  | nil => rfl
  | cons p rest ih =>
      have hp : p.1 ≠ k := h p (List.mem_cons_self p rest)
      simp only [lookup, if_neg hp]
      exact ih fun q hq => h q (List.mem_cons_of_mem _ hq)

theorem lookup_some_of_mem_nodup (st : Store K V) (k : K) (item : CachedItem V)
    (hnd : (st.map Prod.fst).Nodup) (hmem : (k, item) ∈ st) :
    lookup st k = some item := by
  induction st with
  | nil => simp at hmem
  | cons p rest ih =>
      simp only [List.map_cons, List.nodup_cons] at hnd
      rcases List.mem_cons.mp hmem with heq | hrest
      · subst heq
        simp [lookup]
      · have hp : p.1 ≠ k := by
          intro hk
          exact hnd.1 (hk ▸ (List.mem_map.mpr ⟨(k, item), hrest, rfl⟩))
        simp only [lookup, if_neg hp]
        exact ih hnd.2 hrest

/-! ### Traversal lemmas -/

theorem lookup_clearPass (s : Store K V) (k : K) :
    ∀ acc : Store K V,
      lookup (clearPass s acc) k
        = if ∃ p ∈ s, p.1 = k then none else lookup acc k := by
  induction s with
  | nil => intro acc; simp [clearPass]
  | cons p rest ih =>
      intro acc
      rw [clearPass, ih]
      by_cases hrest : ∃ q ∈ rest, q.1 = k
      · rw [if_pos hrest, if_pos]
        exact ⟨hrest.choose, List.mem_cons_of_mem _ hrest.choose_spec.1,
          hrest.choose_spec.2⟩
      · rw [if_neg hrest]
        by_cases hp : p.1 = k
        · rw [if_pos ⟨p, List.mem_cons_self p rest, hp⟩, hp, lookup_del_self]
        · rw [if_neg, lookup_del_other _ _ _ (Ne.symm hp)]
          rintro ⟨q, hq, hqk⟩
          rcases List.mem_cons.mp hq with rfl | hq
          · exact hp hqk
          · exact hrest ⟨q, hq, hqk⟩

theorem lookup_sweepPass (ttl now : Int) (s : Store K V) (k : K) :
    ∀ acc : Store K V,
      lookup (sweepPass ttl now s acc) k
        = if ∃ p ∈ s, now - p.2.CreatedTime > ttl ∧ p.1 = k then none
          else lookup acc k := by
  induction s with
  | nil => intro acc; simp [sweepPass]
  | cons p rest ih =>
      intro acc
      rw [sweepPass, ih]
      by_cases hrest : ∃ q ∈ rest, now - q.2.CreatedTime > ttl ∧ q.1 = k
      · rw [if_pos hrest, if_pos]
        exact ⟨hrest.choose, List.mem_cons_of_mem _ hrest.choose_spec.1,
          hrest.choose_spec.2⟩
      · rw [if_neg hrest]
        by_cases hstale : now - p.2.CreatedTime > ttl
        · rw [if_pos hstale]
          by_cases hp : p.1 = k
          · rw [if_pos ⟨p, List.mem_cons_self p rest, hstale, hp⟩, hp,
              lookup_del_self]
          · rw [if_neg, lookup_del_other _ _ _ (Ne.symm hp)]
            rintro ⟨q, hq, hqs, hqk⟩
            rcases List.mem_cons.mp hq with rfl | hq
            · exact hp hqk
            · exact hrest ⟨q, hq, hqs, hqk⟩
        · rw [if_neg hstale, if_neg]
          rintro ⟨q, hq, hqs, hqk⟩
          rcases List.mem_cons.mp hq with rfl | hq
          · exact hstale hqs
          · exact hrest ⟨q, hq, hqs, hqk⟩

theorem runTicks_of_stopClosed (c : Cache K V) (h : c.stopClosed = true) :
    ∀ times : List Int, c.runTicks times = c := by
  intro times
  induction times with
  | nil => rfl
  | cons t ts ih =>
      show List.foldl Cache.tick (c.tick t) ts = c
      rw [Cache.tick, if_pos h]
      exact ih

/-! ### Claims -/

/-- Claim C1: `Get` performs no TTL or age check.  Whenever the key is
bound in the store, `Get` returns the stored value with `found = true`;
`Get` has no clock parameter at all in this embedding (the source never
calls `time.Now()` in `Get`), and its result does not depend on the
cache's `ttl`, so a logically stale entry not yet swept is still returned
as found. -/
theorem C1_get_no_ttl_check [Inhabited V] (c : Cache K V) (k : K)
    (item : CachedItem V) (h : lookup c.cache k = some item) :
    c.Get k = (item.Value, true) ∧
      ∀ t : Int,
        (Cache.mk c.cache t c.stopClosed).Get k = (item.Value, true) := by
  refine ⟨?_, fun t => ?_⟩ <;> simp [Cache.Get, h]

/-- Witness for C1 at a concrete cache whose single entry was created at
instant 0 under `ttl = 5`: the entry is returned as found, with the `ttl`
replaced by `-3` as well. -/
theorem C1_get_no_ttl_check_witness :
    (Cache.mk [((1 : Int), ⟨"a", 0⟩)] 5 false : Cache Int String).Get 1
        = ("a", true) ∧
      (Cache.mk [((1 : Int), ⟨"a", 0⟩)] (-3) false : Cache Int String).Get 1
        = ("a", true) :=
  ⟨(C1_get_no_ttl_check (Cache.mk [((1 : Int), ⟨"a", 0⟩)] 5 false) 1
      ⟨"a", 0⟩ rfl).1,
    (C1_get_no_ttl_check (Cache.mk [((1 : Int), ⟨"a", 0⟩)] 5 false) 1
      ⟨"a", 0⟩ rfl).2 (-3)⟩

/-- Claim C2: write-then-read round trip.  For every cache state, key `k`
and value `v`, `Get k` right after `Set k v` returns `(v, true)`. -/
theorem C2_set_then_get [Inhabited V] (c : Cache K V) (k : K) (v : V)
    (now : Int) : (c.Set k v now).Get k = (v, true) := by
  simp [Cache.Set, Cache.Get, lookup_upsert_self]

/-- Claim C3: strict eviction boundary.  During a sweep pass at the
captured instant `now`, an entry whose age `now - CreatedTime` is exactly
the TTL is not evicted: it is still bound, unchanged, after the pass.
Key uniqueness of the underlying map appears as the `Nodup`
hypothesis. -/
theorem C3_exact_ttl_survives (c : Cache K V) (now : Int) (k : K)
    (item : CachedItem V) (hnd : (c.cache.map Prod.fst).Nodup)
    (h : lookup c.cache k = some item)
    (hage : now - item.CreatedTime = c.ttl) :
    lookup (c.cleanup now).cache k = some item := by
  show lookup (sweepPass c.ttl now c.cache c.cache) k = some item
  rw [lookup_sweepPass, if_neg, h]
  rintro ⟨p, hp, hstale, hpk⟩
  have hlk : lookup c.cache p.1 = some p.2 :=
    lookup_some_of_mem_nodup _ _ _ hnd (by cases p; exact hp)
  rw [hpk, h] at hlk
  cases hlk
  rw [hage] at hstale
  exact lt_irrefl _ hstale

/-- Witness for C3: an entry created at instant 0, swept at instant 5
under `ttl = 5` (age exactly equal to the TTL), survives. -/
theorem C3_exact_ttl_survives_witness :
    lookup ((Cache.mk [((1 : Int), ⟨"a", 0⟩)] 5 false
        : Cache Int String).cleanup 5).cache 1 = some ⟨"a", 0⟩ :=
  C3_exact_ttl_survives (Cache.mk [((1 : Int), ⟨"a", 0⟩)] 5 false) 5 1
    ⟨"a", 0⟩ (by decide) rfl rfl

/-- Claim C4: sweep pass frame condition.  A single cleanup pass at the
captured instant `now` removes exactly the entries with
`now - CreatedTime > ttl` and leaves every other binding present and
unchanged (same value, same creation time).  Key uniqueness of the
underlying map appears as the `Nodup` hypothesis. -/
theorem C4_cleanup_frame (c : Cache K V) (now : Int)
    (hnd : (c.cache.map Prod.fst).Nodup) (k : K) :
    lookup (c.cleanup now).cache k
      = (lookup c.cache k).bind
          (fun item =>
            if now - item.CreatedTime > c.ttl then none else some item) := by
  show lookup (sweepPass c.ttl now c.cache c.cache) k = _
  rw [lookup_sweepPass]
  cases hlk : lookup c.cache k with
  | none =>
      have hnoex :
          ¬ ∃ p ∈ c.cache, now - p.2.CreatedTime > c.ttl ∧ p.1 = k := by
        rintro ⟨p, hp, hstale, hpk⟩
        have h2 : lookup c.cache p.1 = some p.2 :=
          lookup_some_of_mem_nodup _ _ _ hnd (by cases p; exact hp)
        rw [hpk, hlk] at h2
        cases h2
      rw [if_neg hnoex]
      rfl
  | some item =>
      by_cases hstale : now - item.CreatedTime > c.ttl
      · rw [if_pos ⟨(k, item), mem_of_lookup_some _ _ _ hlk, hstale, rfl⟩]
        simp [hstale]
      · have hnoex :
            ¬ ∃ p ∈ c.cache, now - p.2.CreatedTime > c.ttl ∧ p.1 = k := by
          rintro ⟨p, hp, hps, hpk⟩
          have h2 : lookup c.cache p.1 = some p.2 :=
            lookup_some_of_mem_nodup _ _ _ hnd (by cases p; exact hp)
          rw [hpk, hlk] at h2
          cases h2
          exact hstale hps
        rw [if_neg hnoex]
        simp [hstale]

/-- Witness for C4 at a two-entry cache swept at instant 10 under
`ttl = 5`: the entry of age 10 is removed, the entry of age 3 is kept
unchanged. -/
theorem C4_cleanup_frame_witness :
    lookup ((Cache.mk [((1 : Int), ⟨"a", 0⟩), ((2 : Int), ⟨"b", 7⟩)] 5 false
        : Cache Int String).cleanup 10).cache 1 = none ∧
      lookup ((Cache.mk [((1 : Int), ⟨"a", 0⟩), ((2 : Int), ⟨"b", 7⟩)] 5 false
        : Cache Int String).cleanup 10).cache 2 = some ⟨"b", 7⟩ := by
  constructor
  · rw [C4_cleanup_frame (Cache.mk [((1 : Int), ⟨"a", 0⟩),
      ((2 : Int), ⟨"b", 7⟩)] 5 false) 10 (by decide) 1]
    rfl
  · rw [C4_cleanup_frame (Cache.mk [((1 : Int), ⟨"a", 0⟩),
      ((2 : Int), ⟨"b", 7⟩)] 5 false) 10 (by decide) 2]
    rfl

omit [DecidableEq K] in
/-- Claim C5: double-stop is fatal.  On a cache whose stop channel is
still open, `StopCleanup` closes it and returns normally; calling
`StopCleanup` again on the resulting state is the runtime panic raised by
closing an already-closed channel, not a silent no-op. -/
theorem C5_double_stop_panics (c : Cache K V) (h : c.stopClosed = false) :
    c.StopCleanup = Except.ok { c with stopClosed := true } ∧
      ({ c with stopClosed := true } : Cache K V).StopCleanup
        = Except.error GoPanic.closeOfClosedChannel := by
  constructor
  · rw [Cache.StopCleanup, h]
    rfl
  · rfl

/-- Witness for C5 at a freshly constructed cache. -/
theorem C5_double_stop_panics_witness :
    (NewCache 5 : Cache Int String).StopCleanup
        = Except.ok { NewCache 5 with stopClosed := true } ∧
      ({ (NewCache 5 : Cache Int String) with stopClosed := true }
        : Cache Int String).StopCleanup
        = Except.error GoPanic.closeOfClosedChannel :=
  C5_double_stop_panics (NewCache 5) rfl

/-- Claim C6: no eviction after stop.  If `StopCleanup` succeeds before
any tick evicts a given entry, the sweeper performs no further cleanup
pass, so the entry stays retrievable by `Get` through any further
sequence of sweeper iterations, at arbitrary later instants. -/
theorem C6_no_eviction_after_stop [Inhabited V] (c c' : Cache K V) (k : K)
    (v : V) (hstop : c.StopCleanup = Except.ok c')
    (hget : c'.Get k = (v, true)) :
    ∀ times : List Int, (c'.runTicks times).Get k = (v, true) := by
  intro times
  have hclosed : c'.stopClosed = true := by
    rw [Cache.StopCleanup] at hstop
    by_cases h : c.stopClosed
    · rw [if_pos h] at hstop
      cases hstop
    · rw [if_neg h] at hstop
      cases hstop
      rfl
  rw [runTicks_of_stopClosed c' hclosed times, hget]

/-- Witness for C6: after stopping a fresh one-entry cache with
`ttl = 5`, two sweeper iterations at instants far beyond the TTL leave
the entry retrievable. -/
theorem C6_no_eviction_after_stop_witness :
    (((Cache.mk [((1 : Int), ⟨"a", 0⟩)] 5 true
        : Cache Int String)).runTicks [1000000, 2000000]).Get 1
      = ("a", true) :=
  C6_no_eviction_after_stop
    (Cache.mk [((1 : Int), ⟨"a", 0⟩)] 5 false)
    (Cache.mk [((1 : Int), ⟨"a", 0⟩)] 5 true) 1 "a" rfl (by decide)
    [1000000, 2000000]

/-- Claim C7: `Clear` empties the cache.  After the traverse-and-delete
pass completes (sequentially, i.e. with no concurrent writers), `Get`
returns the zero value and `false` for every key. -/
theorem C7_clear_empties [Inhabited V] (c : Cache K V) (k : K) :
    (c.Clear).Get k = (default, false) := by
  have h : lookup (c.Clear).cache k = none := by
    show lookup (clearPass c.cache c.cache) k = none
    rw [lookup_clearPass]
    by_cases hex : ∃ p ∈ c.cache, p.1 = k
    · rw [if_pos hex]
    · rw [if_neg hex]
      exact lookup_none_of_forall _ _ fun p hp hk => hex ⟨p, hp, hk⟩
  simp [Cache.Get, h]

/-- Claim C8: `Delete` postcondition and totality.  After `Delete k`,
`Get k` returns the zero value and `false` whatever the prior state was;
`Delete` of an absent key leaves the cache completely unchanged; and
`Delete` is a total function with no error outcome (it returns a plain
`Cache`). -/
theorem C8_delete_postcondition [Inhabited V] (c : Cache K V) (k : K) :
    (c.Delete k).Get k = (default, false) ∧
      (lookup c.cache k = none → c.Delete k = c) := by
  constructor
  · simp [Cache.Delete, Cache.Get, lookup_del_self]
  · intro h
    cases c with
    | mk st t sc =>
        show Cache.mk (del st k) t sc = Cache.mk st t sc
        rw [del_of_lookup_none st k h]

/-- Witness for C8: deleting key 2, absent from a one-entry cache, makes
`Get 2` miss and leaves the cache unchanged. -/
theorem C8_delete_postcondition_witness :
    ((Cache.mk [((1 : Int), ⟨"a", 0⟩)] 5 false
        : Cache Int String).Delete 2).Get 2 = ("", false) ∧
      (Cache.mk [((1 : Int), ⟨"a", 0⟩)] 5 false
        : Cache Int String).Delete 2
        = Cache.mk [((1 : Int), ⟨"a", 0⟩)] 5 false :=
  ⟨(C8_delete_postcondition
      (Cache.mk [((1 : Int), ⟨"a", 0⟩)] 5 false) 2).1,
    (C8_delete_postcondition
      (Cache.mk [((1 : Int), ⟨"a", 0⟩)] 5 false) 2).2 rfl⟩

/-- Claim C9: `Set` replaces wholesale with a fresh timestamp.  After
`Set k v` at instant `now`, the binding of `k` is exactly the brand-new
entry `⟨v, now⟩` — whatever entry was there before is gone, value and
creation time alike, with no merge — and every other key's binding is
untouched. -/
theorem C9_set_replaces_wholesale (c : Cache K V) (k : K) (v : V)
    (now : Int) :
    lookup (c.Set k v now).cache k = some ⟨v, now⟩ ∧
      ∀ k', k' ≠ k → lookup (c.Set k v now).cache k' = lookup c.cache k' := by
  exact ⟨lookup_upsert_self _ _ _,
    fun k' hne => lookup_upsert_other _ _ _ _ hne⟩

/-- Witness for C9: overwriting key 1 (previously `⟨"old", 0⟩`) with
`"new"` at instant 7 yields exactly `⟨"new", 7⟩` there and leaves key 2's
binding as it was. -/
theorem C9_set_replaces_wholesale_witness :
    lookup ((Cache.mk [((1 : Int), ⟨"old", 0⟩), ((2 : Int), ⟨"b", 3⟩)] 5
        false : Cache Int String).Set 1 "new" 7).cache 1
        = some ⟨"new", 7⟩ ∧
      lookup ((Cache.mk [((1 : Int), ⟨"old", 0⟩), ((2 : Int), ⟨"b", 3⟩)] 5
        false : Cache Int String).Set 1 "new" 7).cache 2
        = lookup [((1 : Int), ⟨"old", 0⟩), ((2 : Int), ⟨"b", 3⟩)] 2 :=
  ⟨(C9_set_replaces_wholesale
      (Cache.mk [((1 : Int), ⟨"old", 0⟩), ((2 : Int), ⟨"b", 3⟩)] 5 false)
      1 "new" 7).1,
    (C9_set_replaces_wholesale
      (Cache.mk [((1 : Int), ⟨"old", 0⟩), ((2 : Int), ⟨"b", 3⟩)] 5 false)
      1 "new" 7).2 2 (by decide)⟩

omit [DecidableEq K] in
/-- Claim C10: construction performs no TTL validation.  For every
duration — zero and negative included, since the quantifier ranges over
all of `Int` — `NewCache` returns a constructed cache carrying that very
`ttl`, an empty store and an open stop channel; no check or defensive
rejection happens at the construction interface. -/
theorem C10_newcache_no_validation :
    ∀ ttl : Int,
      (NewCache ttl : Cache K V).ttl = ttl ∧
        (NewCache ttl : Cache K V).cache = [] ∧
        (NewCache ttl : Cache K V).stopClosed = false :=
  fun _ => ⟨rfl, rfl, rfl⟩

end MemoryCache
